import Mathlib

/-!
Shallow embedding of the documentation builder/bundler of
`scripts/docs/builder.js` (Builder, Bundler, manifest maintenance, version
propagation), together with proofs of the spec's testable properties.

External collaborators (the npm `semver` library, the git helper, the doc
parser, and the filesystem) are modelled as explicit function parameters; the
logic of `builder.js` itself is translated directly.
-/

namespace DocsBuild

/-- Modelled from the spec: `scripts/docs/config.js` is not among the sources;
the spec fixes the umbrella package name (`google-cloud`) used by the docs
builder. -/
def UMBRELLA_PACKAGE : String := "google-cloud"

/-- Modelled from the spec: `scripts/docs/config.js` is not among the sources;
the spec fixes the default version as the `"master"` pseudo-version. -/
def DEFAULT_VERSION : String := "master"

/-- Constant `DOCS_ROOT` of builder.js. -/
def DOCS_ROOT : String := "./docs/json"

/-- Model of Node `path.join` on already-normalized relative segments:
join with a single separator. -/
def pathJoin (a b : String) : String := a ++ "/" ++ b

/-- State of a `Builder` instance: the fields set by the constructor. -/
structure Builder where
  name : String
  version : String
  dir : String
  isUmbrella : Bool
  isMaster : Bool
deriving DecidableEq

/-- The `Builder(name, version, cwd)` constructor.  JavaScript evaluates
`version || config.DEFAULT_VERSION`, so a missing argument and the (falsy)
empty string both fall back to the default version. -/
def Builder.make (name : String) (version : Option String) (cwd : Option String) :
    Builder :=
  let v := match version with
    | none => DEFAULT_VERSION
    | some s => if s = "" then DEFAULT_VERSION else s
  { name := name
    version := v
    dir := pathJoin (pathJoin (pathJoin (cwd.getD "") DOCS_ROOT) name) v
    isUmbrella := name == UMBRELLA_PACKAGE
    isMaster := v == DEFAULT_VERSION }

/-- `Builder.prototype.getTagName`. -/
def Builder.getTagName (b : Builder) : String :=
  if b.isMaster then b.version
  else if b.isUmbrella then "v" ++ b.version
  else b.name ++ "-" ++ b.version

/-- A record of `manifest.modules`. -/
structure Module where
  id : String
  name : String
  defaultService : String
  versions : List String
deriving DecidableEq

/-- The in-memory manifest (`docs/manifest.json`). -/
structure Manifest where
  modules : List Module
deriving DecidableEq

/-- Lexicographic comparison of character lists by code point; model of the
JavaScript `<` on strings. -/
def charListLt : List Char → List Char → Bool
  | [], [] => false
  | [], _ :: _ => true
  | _ :: _, [] => false
  | a :: as, b :: bs =>
      if a.toNat < b.toNat then true
      else if b.toNat < a.toNat then false
      else charListLt as bs

/-- JavaScript string comparison `a > b`. -/
def jsStrGt (a b : String) : Bool := charListLt b.data a.data

/-- The `sortByModId` comparator of builder.js:
umbrella first, then ascending by id. -/
def sortByModId (a b : Module) : Int :=
  if a.id == UMBRELLA_PACKAGE then -1
  else if b.id == UMBRELLA_PACKAGE then 1
  else if jsStrGt a.id b.id then 1
  else if a.id == b.id then 0
  else -1

/-- Comparator order induced by `sortByModId`: `a` sorts no later than `b`. -/
def modLE (a b : Module) : Bool := sortByModId a b ≤ 0

/-- Insertion step of the comparator sort. -/
def insertMod (x : Module) : List Module → List Module
  | [] => [x]
  | y :: ys => if modLE x y then x :: y :: ys else y :: insertMod x ys

/-- Model of `manifest.modules.sort(sortByModId)`: a permutation ordered by
the comparator (insertion sort). -/
def sortModules : List Module → List Module
  | [] => []
  | x :: xs => insertMod x (sortModules xs)

/-- The version-recording step of `updateManifest`:
`if (config.versions.indexOf(this.version) === -1)
   config.versions.unshift(this.version)`. -/
def addVersion (mod : Module) (v : String) : Module :=
  if mod.versions.contains v then mod
  else { mod with versions := v :: mod.versions }

/-- Applies `addVersion` to the first module with the given id: `findWhere`
returns the first match and `updateManifest` mutates that object in place. -/
def updateFirstById (name v : String) : List Module → List Module
  | [] => []
  | mod :: rest =>
      if mod.id == name then addVersion mod v :: rest
      else mod :: updateFirstById name v rest

/-- The fresh record `updateManifest` synthesizes for an unknown module. -/
def newModule (name : String) : Module :=
  { id := name
    name := "@google-cloud/" ++ name
    defaultService := name
    versions := ["master"] }

/-- `Builder.prototype.updateManifest`, as a pure function of the in-memory
manifest (the trailing `fs.writeFileSync` persists the returned value). -/
def Manifest.updateManifest (m : Manifest) (name v : String) : Manifest :=
  match m.modules.find? (fun mod => mod.id == name) with
  | some _ => ⟨updateFirstById name v m.modules⟩
  | none => ⟨updateFirstById name v (sortModules (m.modules ++ [newModule name]))⟩

/-- The versions list recorded for a module id (empty if absent). -/
def versionsOf (m : Manifest) (name : String) : List String :=
  match m.modules.find? (fun mod => mod.id == name) with
  | some mod => mod.versions
  | none => []

/-- A module list in which the umbrella entry, when present, is first. -/
def umbrellaFirstL (l : List Module) : Prop :=
  UMBRELLA_PACKAGE ∈ l.map Module.id →
    (l.map Module.id).head? = some UMBRELLA_PACKAGE

/-- Manifest invariant: the umbrella module's entry, if present, is first. -/
def umbrellaFirst (m : Manifest) : Prop := umbrellaFirstL m.modules

/-- A sequence of `updateManifest` calls (name, version), oldest first. -/
def applyBuilds (m : Manifest) (ops : List (String × String)) : Manifest :=
  ops.foldl (fun acc op => acc.updateManifest op.1 op.2) m

/-- State of a `Bundler` instance. -/
structure Bundler where
  builder : Builder
deriving DecidableEq

/-- The `Bundler(builder)` constructor: accepts either a `Builder` instance or
a bare umbrella version string (the `typeof this.builder === 'string'`
branch builds an umbrella `Builder` from the string). -/
def Bundler.make : Builder ⊕ String → Bundler
  | Sum.inl b => ⟨b⟩
  | Sum.inr v => ⟨Builder.make UMBRELLA_PACKAGE (some v) none⟩

/-- One `@google-cloud/*` dependency declared by the umbrella package.json:
a package name and its declared semver range. -/
structure DepRef where
  name : String
  version : String
deriving DecidableEq

/-- External collaborators of `Bundler.updateDep` and `bundle`:
the npm semver library (`valid`, `maxSatisfying`) and the umbrella
`package.json` dependency table as a function of the checked-out umbrella
version (`git.checkout` followed by `getDeps`). -/
structure Env where
  validSemver : String → Bool
  maxSatisfying : List String → String → Option String
  getDepsAt : String → List DepRef

/-- Observable effects of one `Bundler.updateDep` run: the umbrella versions
checked out (visited), the umbrella versions whose bundles received the new
docs via `bundler.add`, and the error thrown, if any. -/
structure UpdateDepResult where
  visited : List String
  added : List String
  err : Option String
deriving DecidableEq

/-- The error message of `Bundler.updateDep` on a master build. -/
def MASTER_ERROR : String := "Must supply valid version to update bundles with."

/-- The loop body of `Bundler.updateDep` over the remaining umbrella versions:
check out the version, look up the declared range for the package, and add the
docs while the built version is still the max satisfying that range; a missing
dependency entry crashes (`dep.version` on `null`). -/
def updateDepGo (env : Env) (bname bversion : String) (versions : List String) :
    List String → UpdateDepResult
  | [] => ⟨[], [], none⟩
  | bv :: rest =>
      match (env.getDepsAt bv).find? (fun d => d.name == bname) with
      | none => ⟨[bv], [], some "TypeError: cannot read version of null"⟩
      | some dep =>
          if env.maxSatisfying versions dep.version == some bversion then
            let r := updateDepGo env bname bversion versions rest
            ⟨bv :: r.visited, bv :: r.added, r.err⟩
          else ⟨[bv], [], none⟩

/-- `Bundler.updateDep(builder)`: rejects master builds, then walks the
umbrella module's recorded versions from index 0 to `length - 2`
(the loop bound is `bundleVersions.length - 1`), a crash standing in for the
`findWhere` results being `null`. -/
def Bundler.updateDep (m : Manifest) (env : Env) (b : Builder) : UpdateDepResult :=
  if b.isMaster then ⟨[], [], some MASTER_ERROR⟩
  else
    match m.modules.find? (fun mod => mod.id == UMBRELLA_PACKAGE) with
    | none => ⟨[], [], some "TypeError: cannot read versions of null"⟩
    | some bundleConfig =>
        match m.modules.find? (fun mod => mod.id == b.name) with
        | none => ⟨[], [], some "TypeError: cannot read versions of null"⟩
        | some cfg =>
            updateDepGo env b.name b.version (cfg.versions.filter env.validSemver)
              bundleConfig.versions.dropLast

/-- The per-version loop condition of `updateDep`: the umbrella version
declares a range for the package and the built version is the max
satisfying it. -/
def depOk (env : Env) (bname bversion : String) (versions : List String)
    (bv : String) : Bool :=
  match (env.getDepsAt bv).find? (fun d => d.name == bname) with
  | none => false
  | some dep => env.maxSatisfying versions dep.version == some bversion

/-- Rendering of claim C2's stated iteration order: the same per-version
processing as `Bundler.updateDep`, but walking the recorded umbrella versions
from oldest to newest — new versions are prepended to the manifest list, so
that order is the reversed list. -/
def updateDepOldestFirst (m : Manifest) (env : Env) (b : Builder) :
    UpdateDepResult :=
  if b.isMaster then ⟨[], [], some MASTER_ERROR⟩
  else
    match m.modules.find? (fun mod => mod.id == UMBRELLA_PACKAGE) with
    | none => ⟨[], [], some "TypeError: cannot read versions of null"⟩
    | some bundleConfig =>
        match m.modules.find? (fun mod => mod.id == b.name) with
        | none => ⟨[], [], some "TypeError: cannot read versions of null"⟩
        | some cfg =>
            updateDepGo env b.name b.version (cfg.versions.filter env.validSemver)
              bundleConfig.versions.reverse

/-- `Builder.prototype.parseFile`: wraps any parser failure in an error naming
the offending file. The parser collaborator is the `parse` parameter. -/
def parseFile (parse : String → Except String String) (file : String) :
    Except String String :=
  match parse file with
  | Except.ok json => Except.ok json
  | Except.error e =>
      Except.error ("Unable to generate docs for file: " ++ file ++
        ". Reason: " ++ e)

/-- The per-file mapping step of `Builder.prototype.build`: parses each
matched source file in order; a throw aborts the remaining files. -/
def buildDocs (parse : String → Except String String) :
    List String → Except String (List String)
  | [] => Except.ok []
  | f :: fs =>
      match parseFile parse f with
      | Except.error e => Except.error e
      | Except.ok json =>
          match buildDocs parse fs with
          | Except.error e => Except.error e
          | Except.ok rest => Except.ok (json :: rest)

/-- One entry of a type dictionary: the `contents` path rewritten by
`bundle`, plus the parser-produced payload left untouched. -/
structure TypeEntry where
  contents : String
  payload : String
deriving DecidableEq

/-- External collaborator of `bundle`: `builder.getTypes()` — the type
dictionary built for a package at a version. -/
structure BundleEnv where
  getTypesAt : String → String → List TypeEntry
deriving Inhabited

/-- The dependency-resolution step of `Bundler.prototype.bundle`: for each
declared dependency, the max version satisfying its range among the
manifest-recorded valid versions; a missing manifest module crashes
(`config.versions` on `null`). -/
def resolveDeps (m : Manifest) (env : Env) :
    List DepRef → Except String (List (String × Option String))
  | [] => Except.ok []
  | d :: ds =>
      match m.modules.find? (fun mod => mod.id == d.name) with
      | none => Except.error "TypeError: cannot read versions of null"
      | some cfg =>
          match resolveDeps m env ds with
          | Except.error e => Except.error e
          | Except.ok rest =>
              Except.ok
                ((d.name,
                  env.maxSatisfying (cfg.versions.filter env.validSemver)
                    d.version) :: rest)

/-- The resolved version of one dependency, as `bundle` computes it. -/
def resolvedVersionOf (m : Manifest) (env : Env) (d : DepRef) : Option String :=
  env.maxSatisfying ((versionsOf m d.name).filter env.validSemver) d.version

/-- The per-dependency types of `bundle`: the dependency is rebuilt through
`new Builder(dep.name, dep.version, ...)` and each of its type entries gets
`contents` prefixed with `path.join(dep.name, type.contents)`. -/
def depTypesOf (benv : BundleEnv) (dep : String × Option String) :
    List TypeEntry :=
  let b := Builder.make dep.1 dep.2 none
  (benv.getTypesAt b.name b.version).map
    (fun t => { t with contents := pathJoin dep.1 t.contents })

/-- The combined type dictionary written by `Bundler.prototype.bundle`:
the umbrella's own types concatenated with the flattened per-dependency
prefixed types (`baseTypes.concat(flatten(depTypes))`). -/
def Bundler.bundleTypes (m : Manifest) (env : Env) (benv : BundleEnv)
    (bu : Bundler) (deps0 : List DepRef) : Except String (List TypeEntry) :=
  let baseTypes := benv.getTypesAt bu.builder.name bu.builder.version
  match resolveDeps m env deps0 with
  | Except.error e => Except.error e
  | Except.ok deps =>
      Except.ok (baseTypes ++ (deps.map (depTypesOf benv)).flatten)

/-! Concrete instantiations of the external collaborators, used to evaluate
the theorems on closed inputs: a two-version umbrella manifest, a freshly
built `bigtable@0.4.1`, and a small semver oracle for the ranges involved. -/

/-- A concrete validity oracle: everything but the master pseudo-version. -/
def semverValid1 (s : String) : Bool := s != "master"

/-- A concrete `maxSatisfying` oracle for the two ranges of the scenario. -/
def maxSat1 (versions : List String) (range : String) : Option String :=
  if range == "^0.4.0" then
    (if versions.contains "0.4.1" then some "0.4.1" else none)
  else if range == "^0.3.0" then
    (if versions.contains "0.3.2" then some "0.3.2" else none)
  else none

/-- Concrete environment: every umbrella version declares `bigtable: ^0.4.0`. -/
def env2 : Env :=
  { validSemver := semverValid1
    maxSatisfying := maxSat1
    getDepsAt := fun _ => [⟨"bigtable", "^0.4.0"⟩] }

/-- The umbrella module record with versions 0.45.0 (newest, prepended last)
and 0.44.0 (older). -/
def gcModule : Module :=
  { id := "google-cloud"
    name := "@google-cloud/google-cloud"
    defaultService := "google-cloud"
    versions := ["0.45.0", "0.44.0"] }

/-- The bigtable module record. -/
def btModule : Module :=
  { id := "bigtable"
    name := "@google-cloud/bigtable"
    defaultService := "bigtable"
    versions := ["0.4.1", "0.3.2", "master"] }

/-- Concrete manifest of the scenario. -/
def m2 : Manifest := ⟨[gcModule, btModule]⟩

/-- The freshly built `bigtable@0.4.1`. -/
def b2 : Builder := Builder.make "bigtable" (some "0.4.1") none

/-- A concrete parser collaborator that fails on one file. -/
def parse1 : String → Except String String :=
  fun f => if f == "bad.js" then Except.error "boom" else Except.ok "{}"

/-- Concrete type dictionaries for the bundle scenario. -/
def benv1 : BundleEnv :=
  ⟨fun n v =>
    if n == "google-cloud" && v == "0.45.0" then [⟨"index.json", "gc"⟩]
    else if n == "bigtable" && v == "0.4.1" then [⟨"bigtable.json", "bt"⟩]
    else []⟩

/-- Bundler for the umbrella at 0.45.0. -/
def bu1 : Bundler :=
  Bundler.make (Sum.inl (Builder.make "google-cloud" (some "0.45.0") none))

/-- The umbrella's declared dependencies in the bundle scenario. -/
def deps1 : List DepRef := [⟨"bigtable", "^0.4.0"⟩]

/-- The combined type dictionary the bundle scenario produces. -/
def out1 : List TypeEntry :=
  [⟨"index.json", "gc"⟩, ⟨"bigtable/bigtable.json", "bt"⟩]

/-! Theorems. -/

/-- C1 (amended): for every package name `p` and every nonempty version `v`,
`new Builder(p, v).getTagName()` returns `v` unchanged when `v` is the default
version, `"v" + v` when `p` is the umbrella package and `v` is not default,
and `p + "-" + v` otherwise.  (The empty version string is excluded: being
falsy, the constructor replaces it with the default version.) -/
theorem getTagName_spec (p v : String) (h : v ≠ "") :
    (Builder.make p (some v) none).getTagName =
      (if v = DEFAULT_VERSION then v
       else if p = UMBRELLA_PACKAGE then "v" ++ v
       else p ++ "-" ++ v) := by
  simp only [Builder.make, Builder.getTagName, if_neg h]
  by_cases hm : v = DEFAULT_VERSION
  · simp [hm]
  · by_cases hu : p = UMBRELLA_PACKAGE
    · simp [hm, hu]
    · simp [hm, hu]

/-- Witness for C1's theorem at `p = "bigtable"`, `v = "0.4.1"`. -/
theorem getTagName_spec_witness :
    (Builder.make "bigtable" (some "0.4.1") none).getTagName =
      (if "0.4.1" = DEFAULT_VERSION then "0.4.1"
       else if "bigtable" = UMBRELLA_PACKAGE then "v" ++ "0.4.1"
       else "bigtable" ++ "-" ++ "0.4.1") :=
  getTagName_spec "bigtable" "0.4.1" (by decide)

/-- C1 counterexample: for the empty version string the claim dictates the
result `"bigtable" + "-" + ""` (the empty string is neither the default
version nor is `bigtable` the umbrella), yet the constructor treats the falsy
empty string as absent and `getTagName` returns the default version. -/
theorem getTagName_empty_counterexample :
    (Builder.make "bigtable" (some "") none).getTagName = "master" ∧
    "" ≠ DEFAULT_VERSION ∧ "bigtable" ≠ UMBRELLA_PACKAGE ∧
    (Builder.make "bigtable" (some "") none).getTagName ≠
      "bigtable" ++ "-" ++ "" := by
  decide

/-- C9: constructing a `Bundler` from a version string is the same value as
constructing it from `new Builder(UMBRELLA_PACKAGE, v)`; every method of the
two bundlers therefore behaves identically. -/
theorem bundler_make_string_eq (v : String) :
    Bundler.make (Sum.inr v) =
      Bundler.make (Sum.inl (Builder.make UMBRELLA_PACKAGE (some v) none)) :=
  rfl

/-- C6: `Bundler.updateDep` on a master build throws the descriptive fatal
error before any checkout: nothing is visited, no bundle receives docs, and
(the function reads but never writes the manifest) no manifest state
changes. -/
theorem updateDep_master_error (m : Manifest) (env : Env) (b : Builder)
    (h : b.isMaster = true) :
    Bundler.updateDep m env b = ⟨[], [], some MASTER_ERROR⟩ := by
  simp [Bundler.updateDep, h]

/-- Witness for C6's theorem: a builder constructed without a version is a
master build. -/
theorem updateDep_master_error_witness :
    Bundler.updateDep m2 env2 (Builder.make "bigtable" none none) =
      ⟨[], [], some MASTER_ERROR⟩ :=
  updateDep_master_error m2 env2 (Builder.make "bigtable" none none) (by decide)

/-- C7: if some source file fails to parse, `build`'s per-file pass aborts
with an error that wraps the parser's message and names an offending file;
no `ok` result with the remaining files is produced. -/
theorem build_parse_error (parse : String → Except String String)
    (files : List String) (f e : String)
    (hf : f ∈ files) (he : parse f = Except.error e) :
    ∃ f' e', f' ∈ files ∧ parse f' = Except.error e' ∧
      buildDocs parse files =
        Except.error ("Unable to generate docs for file: " ++ f' ++
          ". Reason: " ++ e') := by
  induction files with
  | nil => cases hf
  | cons g fs ih =>
      cases hg : parse g with
      | error e0 =>
          refine ⟨g, e0, List.mem_cons_self g fs, hg, ?_⟩
          simp [buildDocs, parseFile, hg]
      | ok j =>
          have hf' : f ∈ fs := by
            rcases List.mem_cons.mp hf with rfl | hmem
            · rw [hg] at he; simp at he
            · exact hmem
          obtain ⟨f', e', hmem, hpe, hbd⟩ := ih hf'
          refine ⟨f', e', List.mem_cons_of_mem g hmem, hpe, ?_⟩
          simp [buildDocs, parseFile, hg, hbd]

/-- Witness for C7's theorem: a file list whose second file fails to parse. -/
theorem build_parse_error_witness :
    ∃ f' e', f' ∈ ["index.js", "bad.js"] ∧ parse1 f' = Except.error e' ∧
      buildDocs parse1 ["index.js", "bad.js"] =
        Except.error ("Unable to generate docs for file: " ++ f' ++
          ". Reason: " ++ e') :=
  build_parse_error parse1 ["index.js", "bad.js"] "bad.js" "boom"
    (by decide) (by rfl)

/-- Every umbrella version the loop adds docs to passed the max-satisfying
test for its declared range. -/
theorem updateDepGo_added_cond (env : Env) (bn bvn : String) (vs : List String)
    (l : List String) (x : String)
    (h : x ∈ (updateDepGo env bn bvn vs l).added) :
    ∃ dep, (env.getDepsAt x).find? (fun d => d.name == bn) = some dep ∧
      env.maxSatisfying vs dep.version = some bvn := by
  induction l with
  | nil => simp [updateDepGo] at h
  | cons bv rest ih =>
      rw [updateDepGo] at h
      split at h
      · simp at h
      · rename_i dep hd
        split at h
        · rename_i hc
          rcases List.mem_cons.mp h with rfl | hmem
          · exact ⟨dep, hd, by simpa using hc⟩
          · exact ih hmem
        · simp at h

/-- The docs are added exactly along the longest prefix of the walked
versions on which the loop condition holds. -/
theorem updateDepGo_added_eq_takeWhile (env : Env) (bn bvn : String)
    (vs : List String) (l : List String) :
    (updateDepGo env bn bvn vs l).added = l.takeWhile (depOk env bn bvn vs) := by
  induction l with
  | nil => simp [updateDepGo]
  | cons bv rest ih =>
      rw [updateDepGo, List.takeWhile]
      cases hd : (env.getDepsAt bv).find? (fun d => d.name == bn) with
      | none => simp [depOk, hd]
      | some dep =>
          by_cases hc : env.maxSatisfying vs dep.version = some bvn
          · simp [depOk, hd, hc, ih]
          · have hcf : (env.maxSatisfying vs dep.version == some bvn) = false := by
              simpa using hc
            simp [depOk, hd, hcf]

/-- The versions the loop checks out form a prefix of the versions walked. -/
theorem updateDepGo_visited_take (env : Env) (bn bvn : String)
    (vs : List String) (l : List String) :
    ∃ k, (updateDepGo env bn bvn vs l).visited = l.take k := by
  induction l with
  | nil => exact ⟨0, rfl⟩
  | cons bv rest ih =>
      rw [updateDepGo]
      cases hd : (env.getDepsAt bv).find? (fun d => d.name == bn) with
      | none => exact ⟨1, by simp⟩
      | some dep =>
          by_cases hc : env.maxSatisfying vs dep.version = some bvn
          · obtain ⟨k, hk⟩ := ih
            exact ⟨k + 1, by simp [hc, hk]⟩
          · exact ⟨1, by simp [hc]⟩

/-- C3: `updateDep` never adds docs to an umbrella version whose declared
range for the package resolves to a version other than the one just built:
every version in `added` declares a range whose max satisfying version is
exactly `b.version`. -/
theorem updateDep_frame (m : Manifest) (env : Env) (b : Builder) (bv : String)
    (h : bv ∈ (Bundler.updateDep m env b).added) :
    ∃ cfg dep, m.modules.find? (fun mod => mod.id == b.name) = some cfg ∧
      (env.getDepsAt bv).find? (fun d => d.name == b.name) = some dep ∧
      env.maxSatisfying (cfg.versions.filter env.validSemver) dep.version =
        some b.version := by
  rw [Bundler.updateDep] at h
  split at h
  · simp at h
  · split at h
    · simp at h
    · rename_i bc hbc
      split at h
      · simp at h
      · rename_i cfg hcfg
        obtain ⟨dep, hd, hc⟩ :=
          updateDepGo_added_cond env b.name b.version _ _ bv h
        exact ⟨cfg, dep, hcfg, hd, hc⟩

/-- Witness for C3's theorem: in the concrete scenario the docs were added to
umbrella version 0.45.0, whose range resolves to the built version. -/
theorem updateDep_frame_witness :
    ∃ cfg dep, m2.modules.find? (fun mod => mod.id == b2.name) = some cfg ∧
      (env2.getDepsAt "0.45.0").find? (fun d => d.name == b2.name) = some dep ∧
      env2.maxSatisfying (cfg.versions.filter env2.validSemver) dep.version =
        some b2.version :=
  updateDep_frame m2 env2 b2 "0.45.0" (by decide)

/-- C2 (amended): on a non-master build with both manifest records present,
`updateDep` walks the umbrella module's recorded versions in manifest list
order — front to back, i.e. newest to oldest, since new versions are
prepended — excluding the final (oldest) entry, and adds the builder's docs
along the longest prefix on which the builder's version is the max version
satisfying the umbrella version's declared range, stopping at the first
version where it is not. -/
theorem updateDep_added_takeWhile (m : Manifest) (env : Env) (b : Builder)
    (bc cfg : Module) (hmaster : b.isMaster = false)
    (hbc : m.modules.find? (fun mod => mod.id == UMBRELLA_PACKAGE) = some bc)
    (hcfg : m.modules.find? (fun mod => mod.id == b.name) = some cfg) :
    (Bundler.updateDep m env b).added =
      bc.versions.dropLast.takeWhile
        (depOk env b.name b.version (cfg.versions.filter env.validSemver)) := by
  rw [Bundler.updateDep, if_neg (by simp [hmaster]), hbc, hcfg]
  exact updateDepGo_added_eq_takeWhile env b.name b.version
    (cfg.versions.filter env.validSemver) bc.versions.dropLast

/-- Witness for C2's amended theorem in the concrete scenario. -/
theorem updateDep_added_takeWhile_witness :
    (Bundler.updateDep m2 env2 b2).added =
      gcModule.versions.dropLast.takeWhile
        (depOk env2 b2.name b2.version
          (btModule.versions.filter env2.validSemver)) :=
  updateDep_added_takeWhile m2 env2 b2 gcModule btModule
    (by decide) (by decide) (by decide)

/-- C2 counterexample: with umbrella versions `["0.45.0", "0.44.0"]` (newest
prepended first) and both versions' ranges satisfied by the built
`bigtable@0.4.1`, the code adds docs only to `0.45.0` — the front of the
list, never the last entry — while the claimed oldest-to-newest walk
(`updateDepOldestFirst`) would visit `0.44.0` first and add docs to both. -/
theorem updateDep_order_counterexample :
    Bundler.updateDep m2 env2 b2 = ⟨["0.45.0"], ["0.45.0"], none⟩ ∧
    updateDepOldestFirst m2 env2 b2 =
      ⟨["0.44.0", "0.45.0"], ["0.44.0", "0.45.0"], none⟩ ∧
    "0.44.0" ∈ (updateDepOldestFirst m2 env2 b2).added ∧
    "0.44.0" ∉ (Bundler.updateDep m2 env2 b2).added := by
  decide

/-- C10: the loop bound `bundleVersions.length - 1` means `updateDep` checks
out a prefix of the recorded umbrella versions without their last entry; in
particular, with exactly one recorded umbrella version nothing is visited and
no docs are added anywhere. -/
theorem updateDep_skips_last (m : Manifest) (env : Env) (b : Builder)
    (bc : Module)
    (hbc : m.modules.find? (fun mod => mod.id == UMBRELLA_PACKAGE) = some bc) :
    (∃ k, (Bundler.updateDep m env b).visited = bc.versions.dropLast.take k) ∧
    (Bundler.updateDep m env b).visited.length ≤ bc.versions.length - 1 ∧
    (bc.versions.length = 1 →
      (Bundler.updateDep m env b).visited = [] ∧
      (Bundler.updateDep m env b).added = []) := by
  rw [Bundler.updateDep]
  split
  · exact ⟨⟨0, rfl⟩, by simp, fun _ => ⟨rfl, rfl⟩⟩
  · split
    · rename_i hnone
      rw [hbc] at hnone
      cases hnone
    · rename_i bc' hbc'
      rw [hbc] at hbc'
      injection hbc' with hbc'
      subst hbc'
      split
      · exact ⟨⟨0, rfl⟩, by simp, fun _ => ⟨rfl, rfl⟩⟩
      · rename_i cfg hcfg
        obtain ⟨k, hk⟩ := updateDepGo_visited_take env b.name b.version
          (cfg.versions.filter env.validSemver) bc.versions.dropLast
        refine ⟨⟨k, hk⟩, ?_, ?_⟩
        · rw [hk]
          calc (bc.versions.dropLast.take k).length
              ≤ bc.versions.dropLast.length := by
                rw [List.length_take]; exact min_le_right k _
            _ = bc.versions.length - 1 := List.length_dropLast bc.versions
        · intro h1
          obtain ⟨a, ha⟩ := List.length_eq_one.mp h1
          have hd : bc.versions.dropLast = [] := by rw [ha]; rfl
          rw [hd]
          exact ⟨rfl, rfl⟩

/-- Witness for C10's theorem in the concrete scenario. -/
theorem updateDep_skips_last_witness :
    (∃ k, (Bundler.updateDep m2 env2 b2).visited =
        gcModule.versions.dropLast.take k) ∧
    (Bundler.updateDep m2 env2 b2).visited.length ≤
      gcModule.versions.length - 1 ∧
    (gcModule.versions.length = 1 →
      (Bundler.updateDep m2 env2 b2).visited = [] ∧
      (Bundler.updateDep m2 env2 b2).added = []) :=
  updateDep_skips_last m2 env2 b2 gcModule (by decide)

/-- `addVersion` does not change the module id. -/
theorem addVersion_id (mod : Module) (v : String) :
    (addVersion mod v).id = mod.id := by
  unfold addVersion
  split <;> rfl

/-- After `addVersion`, the version is recorded. -/
theorem mem_addVersion (mod : Module) (v : String) :
    v ∈ (addVersion mod v).versions := by
  unfold addVersion
  split
  · rename_i h; simpa using h
  · exact List.mem_cons_self v mod.versions

/-- `addVersion` is the identity on modules that already record the version. -/
theorem addVersion_mem_eq (mod : Module) (v : String) (h : v ∈ mod.versions) :
    addVersion mod v = mod := by
  unfold addVersion
  rw [if_pos (by simpa using h)]

/-- `addVersion` never introduces a duplicate of the version it records. -/
theorem addVersion_count (mod : Module) (v : String)
    (h : mod.versions.count v ≤ 1) :
    (addVersion mod v).versions.count v ≤ 1 := by
  unfold addVersion
  split
  · exact h
  · rename_i hnc
    have h0 : mod.versions.count v = 0 := by
      rw [List.count_eq_zero]
      intro hmem
      exact hnc (by simpa using hmem)
    simp [List.count_cons_self, h0]

/-- Finding by id after `updateFirstById` finds the updated module. -/
theorem find?_updateFirstById (n v : String) (l : List Module) :
    (updateFirstById n v l).find? (fun mod => mod.id == n) =
      (l.find? (fun mod => mod.id == n)).map (fun mod => addVersion mod v) := by
  induction l with
  | nil => rfl
  | cons mod rest ih =>
      by_cases h : mod.id = n
      · rw [updateFirstById, if_pos (by simpa using h)]
        rw [List.find?_cons_of_pos _ (by simp [addVersion_id, h]),
          List.find?_cons_of_pos _ (by simp [h])]
        rfl
      · rw [updateFirstById, if_neg (by simpa using h)]
        rw [List.find?_cons_of_neg _ (by simp [h]),
          List.find?_cons_of_neg _ (by simp [h])]
        exact ih

/-- `updateFirstById` is the identity when the first module with the id (if
any) already records the version. -/
theorem updateFirstById_eq_self (n v : String) (l : List Module)
    (h : ∀ mod, l.find? (fun mod => mod.id == n) = some mod →
      v ∈ mod.versions) :
    updateFirstById n v l = l := by
  induction l with
  | nil => rfl
  | cons mod rest ih =>
      by_cases hm : mod.id = n
      · rw [updateFirstById, if_pos (by simpa using hm)]
        rw [addVersion_mem_eq mod v
          (h mod (List.find?_cons_of_pos _ (by simp [hm])))]
      · rw [updateFirstById, if_neg (by simpa using hm)]
        rw [ih (fun mod' hm' => h mod'
          (by rw [List.find?_cons_of_neg _ (by simp [hm])]; exact hm'))]

/-- Membership in an insertion step. -/
theorem mem_insertMod (a x : Module) (l : List Module) :
    a ∈ insertMod x l ↔ a = x ∨ a ∈ l := by
  induction l with
  | nil => simp [insertMod]
  | cons y ys ih =>
      rw [insertMod]
      split
      · simp [List.mem_cons]
      · simp only [List.mem_cons, ih]
        tauto

/-- The comparator sort is membership-preserving. -/
theorem mem_sortModules (a : Module) (l : List Module) :
    a ∈ sortModules l ↔ a ∈ l := by
  induction l with
  | nil => simp [sortModules]
  | cons x xs ih => simp [sortModules, mem_insertMod, ih, List.mem_cons]

/-- `updateManifest` when a module with the id exists. -/
theorem updateManifest_of_found (m : Manifest) (n v : String) (mod : Module)
    (hf : m.modules.find? (fun mod => mod.id == n) = some mod) :
    m.updateManifest n v = ⟨updateFirstById n v m.modules⟩ := by
  unfold Manifest.updateManifest
  rw [hf]

/-- `updateManifest` when the module is new: push, comparator sort, record. -/
theorem updateManifest_of_none (m : Manifest) (n v : String)
    (hf : m.modules.find? (fun mod => mod.id == n) = none) :
    m.updateManifest n v =
      ⟨updateFirstById n v (sortModules (m.modules ++ [newModule n]))⟩ := by
  unfold Manifest.updateManifest
  rw [hf]

/-- After `updateManifest`, a module with the id is found and it carries the
recorded version. -/
theorem find?_updateManifest (m : Manifest) (n v : String) :
    ∃ mod, (m.updateManifest n v).modules.find? (fun mod => mod.id == n) =
      some (addVersion mod v) := by
  cases hf : m.modules.find? (fun mod => mod.id == n) with
  | some mod0 =>
      refine ⟨mod0, ?_⟩
      rw [updateManifest_of_found m n v mod0 hf]
      rw [find?_updateFirstById, hf]
      rfl
  | none =>
      have hmem : newModule n ∈ sortModules (m.modules ++ [newModule n]) := by
        rw [mem_sortModules]
        simp
      have hex : ∃ x ∈ sortModules (m.modules ++ [newModule n]),
          (x.id == n) = true := ⟨newModule n, hmem, by simp [newModule]⟩
      obtain ⟨mod0, hm0⟩ :=
        Option.isSome_iff_exists.mp (List.find?_isSome.mpr hex)
      refine ⟨mod0, ?_⟩
      rw [updateManifest_of_none m n v hf]
      rw [find?_updateFirstById, hm0]
      rfl

/-- C4: `updateManifest` is idempotent for a fixed (package, version) pair,
and it never introduces a duplicate version entry: if the version occurred at
most once in the module's recorded versions, it still occurs at most once
afterwards. -/
theorem updateManifest_idem (m : Manifest) (n v : String) :
    (m.updateManifest n v).updateManifest n v = m.updateManifest n v ∧
    ((versionsOf m n).count v ≤ 1 →
      (versionsOf (m.updateManifest n v) n).count v ≤ 1) := by
  constructor
  · obtain ⟨mod0, hf⟩ := find?_updateManifest m n v
    rw [updateManifest_of_found (m.updateManifest n v) n v _ hf]
    rw [updateFirstById_eq_self n v _ (fun mod hm => by
      rw [hf] at hm
      injection hm with hm
      rw [← hm]
      exact mem_addVersion mod0 v)]
  · intro hc
    cases hf : m.modules.find? (fun mod => mod.id == n) with
    | some mod0 =>
        rw [updateManifest_of_found m n v mod0 hf]
        unfold versionsOf
        rw [find?_updateFirstById, hf]
        have hc0 : mod0.versions.count v ≤ 1 := by
          unfold versionsOf at hc
          rw [hf] at hc
          exact hc
        exact addVersion_count mod0 v hc0
    | none =>
        rw [updateManifest_of_none m n v hf]
        unfold versionsOf
        rw [find?_updateFirstById]
        cases hg : (sortModules (m.modules ++ [newModule n])).find?
            (fun mod => mod.id == n) with
        | none =>
            exfalso
            rw [List.find?_eq_none] at hg
            exact hg (newModule n) (by rw [mem_sortModules]; simp)
              (by simp [newModule])
        | some mod0 =>
            have hx : mod0 ∈ sortModules (m.modules ++ [newModule n]) :=
              List.mem_of_find?_eq_some hg
            have hpx := List.find?_some hg
            rw [mem_sortModules] at hx
            have hmod0 : mod0 = newModule n := by
              rcases List.mem_append.mp hx with hin | hin
              · exfalso
                rw [List.find?_eq_none] at hf
                exact hf mod0 hin hpx
              · simpa using hin
            subst hmod0
            apply addVersion_count
            simpa [newModule] using List.count_le_length v ["master"]

/-- Witness for C4's theorem: a fresh manifest, updated twice for bigtable. -/
theorem updateManifest_idem_witness :
    (((Manifest.mk []).updateManifest "bigtable" "0.4.1").updateManifest
        "bigtable" "0.4.1" =
      (Manifest.mk []).updateManifest "bigtable" "0.4.1") ∧
    (versionsOf ((Manifest.mk []).updateManifest "bigtable" "0.4.1")
        "bigtable").count "0.4.1" ≤ 1 :=
  ⟨(updateManifest_idem ⟨[]⟩ "bigtable" "0.4.1").1,
   (updateManifest_idem ⟨[]⟩ "bigtable" "0.4.1").2 (by decide)⟩

/-- An umbrella module sorts no later than anything. -/
theorem modLE_umbrella_left (x y : Module) (h : x.id = UMBRELLA_PACKAGE) :
    modLE x y = true := by
  unfold modLE sortByModId
  rw [if_pos (by simp [h])]
  rfl

/-- A non-umbrella module never sorts before an umbrella module. -/
theorem modLE_umbrella_right (x y : Module) (hx : x.id ≠ UMBRELLA_PACKAGE)
    (hy : y.id = UMBRELLA_PACKAGE) : modLE x y = false := by
  unfold modLE sortByModId
  rw [if_neg (by simp [hx]), if_pos (by simp [hy])]
  rfl

/-- Ids occurring after an insertion step. -/
theorem id_mem_insertMod (a : String) (x : Module) (l : List Module) :
    a ∈ (insertMod x l).map Module.id ↔
      a = x.id ∨ a ∈ l.map Module.id := by
  induction l with
  | nil => simp [insertMod]
  | cons y ys ih =>
      rw [insertMod]
      split
      · simp [List.mem_cons]
      · simp only [List.map_cons, List.mem_cons, ih]
        tauto

/-- Inserting into a list whose umbrella entry (if any) is first keeps the
umbrella entry (if any) first. -/
theorem insertMod_umbrellaFirstL (x : Module) (l : List Module)
    (h : umbrellaFirstL l) : umbrellaFirstL (insertMod x l) := by
  unfold umbrellaFirstL at h ⊢
  cases l with
  | nil =>
      intro hm
      simp only [insertMod, List.map_cons, List.map_nil,
        List.mem_cons, List.not_mem_nil, or_false] at hm
      simp [insertMod, hm]
  | cons y ys =>
      rw [insertMod]
      split
      · rename_i hLE
        intro hm
        simp only [List.map_cons, List.mem_cons] at hm
        rcases hm with hx | hm2
        · simp [hx]
        · have hy : y.id = UMBRELLA_PACKAGE := by
            have hh := h (by simpa using hm2)
            simpa using hh
          by_cases hx2 : x.id = UMBRELLA_PACKAGE
          · simp [hx2]
          · rw [modLE_umbrella_right x y hx2 hy] at hLE
            cases hLE
      · rename_i hLE
        intro hm
        simp only [List.map_cons, List.mem_cons] at hm
        rcases hm with hx | hm2
        · have hy : y.id = UMBRELLA_PACKAGE := by
            exact hx.symm ▸ rfl
          simp [hy]
        · rcases (id_mem_insertMod UMBRELLA_PACKAGE x ys).mp hm2 with hx2 | hm3
          · exfalso
            exact hLE (modLE_umbrella_left x y hx2.symm)
          · have hh := h (by
              rw [List.map_cons]
              exact List.mem_cons.mpr (Or.inr hm3))
            simpa using hh

/-- The comparator sort puts the umbrella entry (if any) first. -/
theorem sortModules_umbrellaFirstL (l : List Module) :
    umbrellaFirstL (sortModules l) := by
  induction l with
  | nil =>
      intro hm
      simp [sortModules] at hm
  | cons x xs ih => exact insertMod_umbrellaFirstL x (sortModules xs) ih

/-- `updateFirstById` leaves the id sequence unchanged. -/
theorem updateFirstById_map_id (n v : String) (l : List Module) :
    (updateFirstById n v l).map Module.id = l.map Module.id := by
  induction l with
  | nil => rfl
  | cons mod rest ih =>
      rw [updateFirstById]
      split
      · simp [addVersion_id]
      · simp [ih]

/-- One `updateManifest` call preserves the umbrella-first invariant. -/
theorem updateManifest_umbrellaFirst (m : Manifest) (n v : String)
    (h : umbrellaFirst m) : umbrellaFirst (m.updateManifest n v) := by
  cases hf : m.modules.find? (fun mod => mod.id == n) with
  | some mod0 =>
      rw [updateManifest_of_found m n v mod0 hf]
      unfold umbrellaFirst umbrellaFirstL at h ⊢
      rw [updateFirstById_map_id]
      exact h
  | none =>
      rw [updateManifest_of_none m n v hf]
      unfold umbrellaFirst umbrellaFirstL
      rw [updateFirstById_map_id]
      exact sortModules_umbrellaFirstL (m.modules ++ [newModule n])

/-- C5: starting from any manifest satisfying the umbrella-first invariant
(the empty manifest included), after any sequence of `updateManifest` calls,
if the umbrella module has an entry then that entry is first, regardless of
the insertion order of the other modules. -/
theorem applyBuilds_umbrellaFirst (m : Manifest) (ops : List (String × String))
    (h : umbrellaFirst m) : umbrellaFirst (applyBuilds m ops) := by
  induction ops generalizing m with
  | nil => exact h
  | cons op rest ih => exact ih _ (updateManifest_umbrellaFirst m op.1 op.2 h)

/-- Witness for C5's theorem: from the empty manifest, insert a non-umbrella
module, then the umbrella, then another module. -/
theorem applyBuilds_umbrellaFirst_witness :
    umbrellaFirst (applyBuilds ⟨[]⟩
      [("pubsub", "0.1.0"), ("google-cloud", "0.45.0"),
        ("bigtable", "0.4.1")]) :=
  applyBuilds_umbrellaFirst ⟨[]⟩
    [("pubsub", "0.1.0"), ("google-cloud", "0.45.0"), ("bigtable", "0.4.1")]
    (fun hm => absurd hm (by simp))

/-- A successful dependency resolution resolves each declared dependency to
the max version satisfying its range among the recorded valid versions. -/
theorem resolveDeps_ok (m : Manifest) (env : Env) (ds : List DepRef)
    (rs : List (String × Option String))
    (h : resolveDeps m env ds = Except.ok rs) :
    rs = ds.map (fun d => (d.name, resolvedVersionOf m env d)) := by
  induction ds generalizing rs with
  | nil =>
      rw [resolveDeps] at h
      injection h with h
      rw [← h]
      rfl
  | cons d ds ih =>
      rw [resolveDeps] at h
      cases hf : m.modules.find? (fun mod => mod.id == d.name) with
      | none =>
          rw [hf] at h
          cases h
      | some cfg =>
          rw [hf] at h
          cases hr : resolveDeps m env ds with
          | error e =>
              rw [hr] at h
              cases h
          | ok rest =>
              rw [hr] at h
              injection h with h
              rw [← h, ih rest hr, List.map_cons]
              congr 1
              simp [resolvedVersionOf, versionsOf, hf]

/-- C8: the combined type dictionary written by `bundle` is the umbrella's
own type entries, unprefixed, followed by every resolved dependency's type
entries in declaration order; each dependency entry is its original entry
with the `contents` path prefixed by the dependency's name. -/
theorem bundle_types_spec (m : Manifest) (env : Env) (benv : BundleEnv)
    (bu : Bundler) (deps0 : List DepRef) (out : List TypeEntry)
    (h : Bundler.bundleTypes m env benv bu deps0 = Except.ok out) :
    out = benv.getTypesAt bu.builder.name bu.builder.version ++
        (deps0.map (fun d =>
          depTypesOf benv (d.name, resolvedVersionOf m env d))).flatten ∧
    ∀ t ∈ (deps0.map (fun d =>
        depTypesOf benv (d.name, resolvedVersionOf m env d))).flatten,
      ∃ d ∈ deps0,
        ∃ t0 ∈ benv.getTypesAt
            (Builder.make d.name (resolvedVersionOf m env d) none).name
            (Builder.make d.name (resolvedVersionOf m env d) none).version,
          t = { t0 with contents := pathJoin d.name t0.contents } := by
  constructor
  · rw [Bundler.bundleTypes] at h
    cases hr : resolveDeps m env deps0 with
    | error e =>
        rw [hr] at h
        cases h
    | ok rs =>
        rw [hr] at h
        injection h with h
        rw [← h, resolveDeps_ok m env deps0 rs hr, List.map_map]
        rfl
  · intro t ht
    rw [List.mem_flatten] at ht
    obtain ⟨L, hL, htL⟩ := ht
    rw [List.mem_map] at hL
    obtain ⟨d, hd, rfl⟩ := hL
    refine ⟨d, hd, ?_⟩
    rw [depTypesOf] at htL
    rw [List.mem_map] at htL
    obtain ⟨t0, ht0, rfl⟩ := htL
    exact ⟨t0, ht0, rfl⟩

/-- Witness for C8's theorem: the concrete bundle scenario, where the
umbrella's own entry stays `index.json` and the resolved `bigtable@0.4.1`
entry becomes `bigtable/bigtable.json`. -/
theorem bundle_types_spec_witness :
    out1 = benv1.getTypesAt bu1.builder.name bu1.builder.version ++
        (deps1.map (fun d =>
          depTypesOf benv1 (d.name, resolvedVersionOf m2 env2 d))).flatten ∧
    ∀ t ∈ (deps1.map (fun d =>
        depTypesOf benv1 (d.name, resolvedVersionOf m2 env2 d))).flatten,
      ∃ d ∈ deps1,
        ∃ t0 ∈ benv1.getTypesAt
            (Builder.make d.name (resolvedVersionOf m2 env2 d) none).name
            (Builder.make d.name (resolvedVersionOf m2 env2 d) none).version,
          t = { t0 with contents := pathJoin d.name t0.contents } :=
  bundle_types_spec m2 env2 benv1 bu1 deps1 out1 (by rfl)

end DocsBuild
